import Mathlib

/-!
Shallow embedding of the dormitory cost-splitting calculator in
src/wemapp.py.  The ROC-calendar date utilities are modelled by
parse_roc_date and date_to_roc_str; the allocation engine by
calculate_costs.  Python floats are modelled as exact rationals,
Python datetime.date as a Date structure with explicit validity
checking, strings as lists of characters, and the regex used by
parse_roc_date as a backtracking matcher exploring alternatives in
the same order as the Python regex engine: a greedy 2-3 digit year
group, an optional separator, a greedy 1-2 digit month group, an
optional separator, and a greedy 1-2 digit day group, anchored at the
start of the string only.  The pandas in-place column assignments of
calculate_costs are modelled by returning the mutated tables as extra
components of the result.
-/

/-- ASCII decimal digit, modelling the regex digit class. -/
def isDigit (c : Char) : Bool := 48 ≤ c.toNat && c.toNat ≤ 57

/-- Separator characters accepted between date fields: slash, hyphen, dot. -/
def isSep (c : Char) : Bool := c == '/' || c == '-' || c == '.'

/-- Whitespace as stripped by Python str.strip (ASCII part). -/
def isWs (c : Char) : Bool :=
  c.toNat == 32 || c.toNat == 9 || c.toNat == 10 || c.toNat == 11 ||
    c.toNat == 12 || c.toNat == 13

/-- Model of Python str.strip: drop whitespace from both ends. -/
def strTrim (l : List Char) : List Char :=
  ((l.dropWhile isWs).reverse.dropWhile isWs).reverse

/-- The decimal digit character for a value below ten. -/
def digitChar : Nat → Char
  | 0 => '0'
  | 1 => '1'
  | 2 => '2'
  | 3 => '3'
  | 4 => '4'
  | 5 => '5'
  | 6 => '6'
  | 7 => '7'
  | 8 => '8'
  | 9 => '9'
  | _ => '?'

/-- Fuel-based helper for decimal rendering: the fuel bounds the digit
count so the recursion is structural. -/
def natCharsAux : Nat → Nat → List Char
  | 0, _ => []
  | fuel + 1, n =>
    if n < 10 then [digitChar n]
    else natCharsAux fuel (n / 10) ++ [digitChar (n % 10)]

/-- Decimal rendering of a natural number, as produced by Python str. -/
def natChars (n : Nat) : List Char := natCharsAux (n + 1) n

/-- Decimal rendering of an integer, as produced by a Python f-string. -/
def intToChars (i : Int) : List Char :=
  if i < 0 then '-' :: natChars i.natAbs else natChars i.toNat

/-- Python format spec 02d: pad with a leading zero to width two. -/
def pad2 (n : Nat) : List Char :=
  if n < 10 then '0' :: natChars n else natChars n

/-- Numeric value of a digit group, modelling Python int on the group text. -/
def digitsVal (l : List Char) : Nat :=
  l.foldl (fun a c => 10 * a + (c.toNat - 48)) 0

/-- Model of Python datetime.date: a year, month, day triple. -/
structure Date where
  year : Nat
  month : Nat
  day : Nat
deriving DecidableEq

/-- Gregorian leap-year rule, as used by datetime.date. -/
def isLeapYear (y : Nat) : Bool :=
  (y % 4 == 0 && y % 100 != 0) || y % 400 == 0

/-- Number of days in a month of a given year. -/
def monthLength (y m : Nat) : Nat :=
  if m = 2 then (if isLeapYear y then 29 else 28)
  else if m = 4 ∨ m = 6 ∨ m = 9 ∨ m = 11 then 30
  else 31

/-- The constructibility check of datetime.date(y, m, d). -/
def Date.isValid (d : Date) : Bool :=
  decide (1 ≤ d.year) && decide (d.year ≤ 9999) && decide (1 ≤ d.month) &&
    decide (d.month ≤ 12) && decide (1 ≤ d.day) &&
    decide (d.day ≤ monthLength d.year d.month)

/-- Model of the datetime.date constructor wrapped in try/except: a
constructible date, or none when the constructor would raise. -/
def mkDate (y m d : Nat) : Option Date :=
  if (Date.mk y m d).isValid then some (Date.mk y m d) else none

/-- Python date comparison: lexicographic on the year, month, day triple. -/
def Date.lt (a b : Date) : Bool :=
  decide (a.year < b.year) ||
    (a.year == b.year &&
      (decide (a.month < b.month) ||
        (a.month == b.month && decide (a.day < b.day))))

/-- Python date less-or-equal comparison. -/
def Date.le (a b : Date) : Bool := Date.lt a b || a == b

/-- Python max of two dates: the second when the first is smaller. -/
def dmax (a b : Date) : Date := if Date.lt a b then b else a

/-- Python min of two dates: the second when it is smaller than the first. -/
def dmin (a b : Date) : Date := if Date.lt b a then b else a

/-- Days in the months of year y strictly before month m. -/
def daysBeforeMonth (y : Nat) : Nat → Nat
  | 0 => 0
  | 1 => 0
  | m + 1 => daysBeforeMonth y m + monthLength y m

/-- Days before January first of year y in the proleptic Gregorian
calendar, so that the ordinal of year one, month one, day one is one,
exactly as datetime.date.toordinal. -/
def daysBeforeYear (y : Nat) : Int :=
  365 * ((y : Int) - 1) + ((y : Int) - 1) / 4 - ((y : Int) - 1) / 100 +
    ((y : Int) - 1) / 400

/-- Model of datetime.date.toordinal. -/
def Date.toOrdinal (d : Date) : Int :=
  daysBeforeYear d.year + (daysBeforeMonth d.year d.month : Int) + (d.day : Int)

/-- Model of Python date subtraction: the .days field of the timedelta. -/
def dateSubDays (a b : Date) : Int := a.toOrdinal - b.toOrdinal

/-- The per-pair overlap computation of calculate_costs, lines 87 to 93:
clip the two intervals against each other and count days inclusively. -/
def overlapDays (bStart bEnd sStart sEnd : Date) : Int :=
  let os := dmax bStart sStart
  let oe := dmin bEnd sEnd
  if Date.le os oe then dateSubDays oe os + 1 else 0

/-- First-success alternative combinator, modelling regex backtracking
order: the left alternative is preferred. -/
def oor : Option α → Option α → Option α
  | some x, _ => some x
  | none, b => b

/-- Consume exactly n digit characters from the front of the list,
returning the digits and the remainder. -/
def takeDigits : Nat → List Char → Option (List Char × List Char)
  | 0, s => some ([], s)
  | _ + 1, [] => none
  | n + 1, c :: s =>
    if isDigit c then
      match takeDigits n s with
      | some (ds, r) => some (c :: ds, r)
      | none => none
    else none

/-- The final day group of the regex: one or two digits, greedy. -/
def matchDay (s : List Char) : Option Nat :=
  oor ((takeDigits 2 s).map fun p => digitsVal p.1)
      ((takeDigits 1 s).map fun p => digitsVal p.1)

/-- Optional separator then the day group, trying to consume the
separator first as the regex does. -/
def sepThenDay : List Char → Option Nat
  | [] => matchDay []
  | c :: r =>
    if isSep c then oor (matchDay r) (matchDay (c :: r)) else matchDay (c :: r)

/-- The month group, one or two digits greedy, followed by the optional
separator and the day group. -/
def monthRest (s : List Char) : Option (Nat × Nat) :=
  oor
    (match takeDigits 2 s with
     | some (m, r) => (sepThenDay r).map fun d => (digitsVal m, d)
     | none => none)
    (match takeDigits 1 s with
     | some (m, r) => (sepThenDay r).map fun d => (digitsVal m, d)
     | none => none)

/-- Optional separator then month and day groups. -/
def sepThenMD : List Char → Option (Nat × Nat)
  | [] => monthRest []
  | c :: r =>
    if isSep c then oor (monthRest r) (monthRest (c :: r)) else monthRest (c :: r)

/-- The full anchored regex of parse_roc_date: a greedy two-or-three
digit year group, optional separator, month group, optional separator,
day group; trailing characters are ignored. -/
def rocMatch (s : List Char) : Option (Nat × Nat × Nat) :=
  oor
    (match takeDigits 3 s with
     | some (y, r) => (sepThenMD r).map fun md => (digitsVal y, md)
     | none => none)
    (match takeDigits 2 s with
     | some (y, r) => (sepThenMD r).map fun md => (digitsVal y, md)
     | none => none)

/-- Model of parse_roc_date, src/wemapp.py lines 14 to 35.  The none
input models a missing (NaN) cell; blank and non-matching strings and
non-constructible calendar values all yield none. -/
def parse_roc_date : Option (List Char) → Option Date
  | none => none
  | some raw =>
    let s := strTrim raw
    if s = [] then none
    else
      match rocMatch s with
      | some (ry, m, d) => mkDate (ry + 1911) m d
      | none => none

/-- Model of date_to_roc_str, src/wemapp.py lines 38 to 41. -/
def date_to_roc_str (d : Date) : List Char :=
  intToChars ((d.year : Int) - 1911) ++ '/' :: (pad2 d.month ++ '/' :: pad2 d.day)

/-- A row of the bills input table as supplied by the UI.  The start_dt
and end_dt fields model the derived pandas columns of the same names:
none means the column is absent, some v a column holding value v. -/
structure BillRow where
  billName : List Char
  amount : ℚ
  rawStart : Option (List Char)
  rawEnd : Option (List Char)
  start_dt : Option (Option Date)
  end_dt : Option (Option Date)
deriving DecidableEq

/-- A row of the residency (students) input table. -/
structure StudentRow where
  studentName : List Char
  rawStart : Option (List Char)
  rawEnd : Option (List Char)
  start_dt : Option (Option Date)
  end_dt : Option (Option Date)
deriving DecidableEq

/-- The in-place column assignment on the bills table performed at
src/wemapp.py lines 48 to 49. -/
def addBillParsed (r : BillRow) : BillRow :=
  { r with start_dt := some (parse_roc_date r.rawStart),
           end_dt := some (parse_roc_date r.rawEnd) }

/-- The in-place column assignment on the students table performed at
src/wemapp.py lines 52 to 53. -/
def addStudentParsed (r : StudentRow) : StudentRow :=
  { r with start_dt := some (parse_roc_date r.rawStart),
           end_dt := some (parse_roc_date r.rawEnd) }

/-- A bill row after all its dates parsed successfully. -/
structure BillP where
  billName : List Char
  amount : ℚ
  bStart : Date
  bEnd : Date
deriving DecidableEq

/-- A residency row after all its dates parsed successfully. -/
structure StudentP where
  studentName : List Char
  sStart : Date
  sEnd : Date
deriving DecidableEq

/-- Parse every date of the bills table; none as soon as any cell
fails, modelling the isnull().any() check at line 56. -/
def parseBills : List BillRow → Option (List BillP)
  | [] => some []
  | r :: rs =>
    match parse_roc_date r.rawStart, parse_roc_date r.rawEnd, parseBills rs with
    | some s, some e, some l => some (BillP.mk r.billName r.amount s e :: l)
    | _, _, _ => none

/-- Parse every date of the students table; none as soon as any cell
fails, modelling the isnull().any() check at line 58. -/
def parseStudents : List StudentRow → Option (List StudentP)
  | [] => some []
  | r :: rs =>
    match parse_roc_date r.rawStart, parse_roc_date r.rawEnd, parseStudents rs with
    | some s, some e, some l => some (StudentP.mk r.studentName s e :: l)
    | _, _, _ => none

/-- Overlap days of one bill against one residency row. -/
def overlapB (b : BillP) (s : StudentP) : Int :=
  overlapDays b.bStart b.bEnd s.sStart s.sEnd

/-- Value of the temp_student_days accumulator for one name: the sum of
overlap days over the residency rows carrying that name. -/
def daysFor (ps : List StudentP) (b : BillP) (n : List Char) : Int :=
  ((ps.filter fun s => s.studentName == n).map fun s => overlapB b s).sum

/-- The bill-level total_person_days accumulator. -/
def totalPD (ps : List StudentP) (b : BillP) : Int :=
  (ps.map fun s => overlapB b s).sum

/-- The share of one bill charged to one resident name, following
src/wemapp.py lines 103 to 109: zero when the bill has no person-days
or the resident has no days, otherwise days times amount over total. -/
def share (ps : List StudentP) (b : BillP) (n : List Char) : ℚ :=
  if 0 < totalPD ps b then
    (if 0 < daysFor ps b n then
      (daysFor ps b n : ℚ) * (b.amount / (totalPD ps b : ℚ))
    else 0)
  else 0

/-- Deduplication keeping the first occurrence, as pandas unique does. -/
def uniqueFirst {α : Type} [BEq α] : List α → List α
  | [] => []
  | a :: l => a :: uniqueFirst (l.filter fun x => !(x == a))
termination_by l => l.length
decreasing_by
  exact Nat.lt_succ_of_le (List.length_filter_le _ _)

/-- The unique_students list of line 65. -/
def residentNames (ps : List StudentP) : List (List Char) :=
  uniqueFirst (ps.map fun s => s.studentName)

/-- The distinct bill names, in first-occurrence order, as they key the
cost_details and day_details dictionaries. -/
def billNames (pb : List BillP) : List (List Char) :=
  uniqueFirst (pb.map fun b => b.billName)

/-- The total_costs accumulator for one resident name. -/
def totalCost (ps : List StudentP) (pb : List BillP) (n : List Char) : ℚ :=
  (pb.map fun b => share ps b n).sum

/-- The cost_details dictionary entry for one name and one bill name:
bill rows sharing a name accumulate into the same entry. -/
def costDetail (ps : List StudentP) (pb : List BillP) (n bn : List Char) : ℚ :=
  ((pb.filter fun b => b.billName == bn).map fun b => share ps b n).sum

/-- The day_details dictionary entry: assignment, not accumulation, so
the last bill row with a given name wins. -/
def dayDetail (ps : List StudentP) (pb : List BillP) (n bn : List Char) : Int :=
  match (pb.filter fun b => b.billName == bn).getLast? with
  | some b => daysFor ps b n
  | none => 0

/-- Model of Python round(x, 0): round to the nearest integer, ties to
the even integer. -/
def roundHalfEven (q : ℚ) : Int :=
  if q - Int.floor q < 1/2 then Int.floor q
  else if 1/2 < q - Int.floor q then Int.floor q + 1
  else if Int.floor q % 2 = 0 then Int.floor q else Int.floor q + 1

/-- A row of the cost result table. -/
structure CostRow where
  studentName : List Char
  totalOwed : ℚ
  perBill : List (List Char × ℚ)
deriving DecidableEq

/-- A row of the display day-count table; cells are rendered strings. -/
structure DaysViewRow where
  studentName : List Char
  perBill : List (List Char × List Char)
deriving DecidableEq

/-- A row of the raw day-count table; cells are plain integers. -/
structure DaysRawRow where
  studentName : List Char
  perBill : List (List Char × Int)
deriving DecidableEq

/-- Which input table held the unparseable date, as named by the two
error messages of lines 57 and 59. -/
inductive ErrSrc
  | billTable
  | studentTable
deriving DecidableEq

/-- An entry of the returned log list: either the single date-format
error message of line 62, or one anomaly string of line 111, modelled
by its interpolated fields, the bill name and its amount. -/
inductive LogEntry
  | dateError (src : ErrSrc)
  | anomaly (billName : List Char) (amount : ℚ)
deriving DecidableEq

/-- The full observable outcome of calculate_costs: the three result
tables (none on a validation error, as the Python returns None), the
log list, and the two input tables as mutated by the derived-column
assignments. -/
structure CalcOut where
  costTable : Option (List CostRow)
  daysView : Option (List DaysViewRow)
  daysRaw : Option (List DaysRawRow)
  log : List LogEntry
  billsAfter : List BillRow
  studentsAfter : List StudentRow
deriving DecidableEq

/-- The rendered day-count cell, an f-string of the count and the
day-unit label. -/
def renderDaysCell (d : Int) : List Char := intToChars d ++ [' ', '天']

/-- The results_cost table built at lines 114 to 119. -/
def costRowsOf (ps : List StudentP) (pb : List BillP) : List CostRow :=
  (residentNames ps).map fun n =>
    CostRow.mk n ((roundHalfEven (totalCost ps pb n) : ℚ))
      ((billNames pb).map fun bn => (bn, ((roundHalfEven (costDetail ps pb n bn) : ℚ))))

/-- The results_days display table built at lines 121 to 131. -/
def daysViewRowsOf (ps : List StudentP) (pb : List BillP) : List DaysViewRow :=
  (residentNames ps).map fun n =>
    DaysViewRow.mk n
      ((billNames pb).map fun bn => (bn, renderDaysCell (dayDetail ps pb n bn)))

/-- The results_days_raw table built at lines 121 to 131. -/
def daysRawRowsOf (ps : List StudentP) (pb : List BillP) : List DaysRawRow :=
  (residentNames ps).map fun n =>
    DaysRawRow.mk n ((billNames pb).map fun bn => (bn, dayDetail ps pb n bn))

/-- The daily_log anomaly list: one entry per bill row whose total
person-days is not positive, in bill order. -/
def anomalyLogOf (ps : List StudentP) (pb : List BillP) : List LogEntry :=
  pb.filterMap fun b =>
    if 0 < totalPD ps b then none
    else some (LogEntry.anomaly b.billName b.amount)

/-- Any-cell-failed check on the bills table, the condition of line 56. -/
def billsHaveBadDate (bills : List BillRow) : Bool :=
  bills.any fun r =>
    (parse_roc_date r.rawStart).isNone || (parse_roc_date r.rawEnd).isNone

/-- Any-cell-failed check on the students table, the condition of line 58. -/
def studentsHaveBadDate (students : List StudentRow) : Bool :=
  students.any fun r =>
    (parse_roc_date r.rawStart).isNone || (parse_roc_date r.rawEnd).isNone

/-- Model of calculate_costs, src/wemapp.py lines 44 to 133.  The
derived date columns are assigned on both tables first; then, if any
date of either table failed to parse, the three tables are none and
the log is the single aggregate error naming the offending table
(bills checked first); otherwise the three result tables and the
anomaly log are built. -/
def calculate_costs (bills : List BillRow) (students : List StudentRow) : CalcOut :=
  let bills2 := bills.map addBillParsed
  let students2 := students.map addStudentParsed
  match parseBills bills, parseStudents students with
  | none, _ =>
    CalcOut.mk none none none [LogEntry.dateError ErrSrc.billTable] bills2 students2
  | some _, none =>
    CalcOut.mk none none none [LogEntry.dateError ErrSrc.studentTable] bills2 students2
  | some pb, some ps =>
    CalcOut.mk (some (costRowsOf ps pb)) (some (daysViewRowsOf ps pb))
      (some (daysRawRowsOf ps pb)) (anomalyLogOf ps pb) bills2 students2

lemma date_le_refl (a : Date) : Date.le a a = true := by
  simp [Date.le]

lemma date_le_of_lt {a b : Date} (h : Date.lt a b = true) : Date.le a b = true := by
  simp [Date.le, h]

lemma date_lt_of_not_le {a b : Date} (h : ¬ Date.le a b = true) : Date.lt b a = true := by
  cases a; cases b
  simp [Date.le, Date.lt, Date.mk.injEq] at *
  omega

lemma date_le_of_not_lt {a b : Date} (h : ¬ Date.lt a b = true) : Date.le b a = true := by
  cases a; cases b
  simp [Date.le, Date.lt, Date.mk.injEq] at *
  omega

lemma date_le_trans {a b c : Date} (h1 : Date.le a b = true) (h2 : Date.le b c = true) :
    Date.le a c = true := by
  cases a; cases b; cases c
  simp [Date.le, Date.lt, Date.mk.injEq] at *
  omega

/-- A strict sandwich around a reversed pair refutes the outer comparison. -/
lemma date_sandwich {a b c d : Date} (h1 : Date.le a b = true)
    (h2 : Date.lt b c = true) (h3 : Date.le c d = true) : Date.le d a = false := by
  cases a; cases b; cases c; cases d
  simp [Date.le, Date.lt, Date.mk.injEq] at *
  omega

lemma dmax_valid {a b : Date} (ha : a.isValid = true) (hb : b.isValid = true) :
    (dmax a b).isValid = true := by
  unfold dmax
  split <;> assumption

lemma dmin_valid {a b : Date} (ha : a.isValid = true) (hb : b.isValid = true) :
    (dmin a b).isValid = true := by
  unfold dmin
  split <;> assumption

lemma le_dmax_left (a b : Date) : Date.le a (dmax a b) = true := by
  unfold dmax
  split
  · exact date_le_of_lt (by assumption)
  · exact date_le_refl a

lemma le_dmax_right (a b : Date) : Date.le b (dmax a b) = true := by
  unfold dmax
  split
  · exact date_le_refl b
  · exact date_le_of_not_lt (by assumption)

lemma dmin_le_left (a b : Date) : Date.le (dmin a b) a = true := by
  unfold dmin
  split
  · exact date_le_of_lt (by assumption)
  · exact date_le_refl a

lemma dmin_le_right (a b : Date) : Date.le (dmin a b) b = true := by
  unfold dmin
  split
  · exact date_le_refl b
  · exact date_le_of_not_lt (by assumption)

lemma dbm_succ (y m : Nat) (h : 1 ≤ m) :
    daysBeforeMonth y (m + 1) = daysBeforeMonth y m + monthLength y m := by
  obtain ⟨k, rfl⟩ : ∃ k, m = k + 1 := ⟨m - 1, by omega⟩
  rfl

lemma dbm_mono (y : Nat) {m m' : Nat} (h : m ≤ m') :
    daysBeforeMonth y m ≤ daysBeforeMonth y m' := by
  induction m' with
  | zero =>
    have hz : m = 0 := by omega
    subst hz
    exact le_refl _
  | succ k ih =>
    rcases Nat.lt_or_ge m (k + 1) with h2 | h2
    · have hk := ih (by omega)
      have step : daysBeforeMonth y k ≤ daysBeforeMonth y (k + 1) := by
        cases k with
        | zero => simp [daysBeforeMonth]
        | succ j =>
          rw [dbm_succ y (j + 1) (by omega)]
          omega
      omega
    · have he : m = k + 1 := by omega
      subst he
      exact le_refl _

lemma dbm13 (y : Nat) :
    daysBeforeMonth y 13 = (if isLeapYear y then 366 else 365) := by
  have e : daysBeforeMonth y 13 =
      31 + monthLength y 2 + 31 + 30 + 31 + 30 + 31 + 31 + 30 + 31 + 30 + 31 := by
    rfl
  rw [e, monthLength]
  cases h : isLeapYear y <;> norm_num

lemma dbm_add_day_le (y m d : Nat) (hm1 : 1 ≤ m) (hm2 : m ≤ 12)
    (hd : d ≤ monthLength y m) :
    daysBeforeMonth y m + d ≤ (if isLeapYear y then 366 else 365) := by
  have h1 : daysBeforeMonth y m + d ≤ daysBeforeMonth y (m + 1) := by
    rw [dbm_succ y m hm1]
    omega
  have h2 : daysBeforeMonth y (m + 1) ≤ daysBeforeMonth y 13 := dbm_mono y (by omega)
  rw [dbm13] at h2
  omega

lemma isLeapYear_iff (y : Nat) :
    isLeapYear y = true ↔ ((y % 4 = 0 ∧ y % 100 ≠ 0) ∨ y % 400 = 0) := by
  simp [isLeapYear]

lemma dby_succ (y : Nat) :
    daysBeforeYear (y + 1) = daysBeforeYear y + (if isLeapYear y then 366 else 365) := by
  cases hL : isLeapYear y
  · rw [if_neg (by simp [hL])]
    rw [Bool.eq_false_iff, Ne, isLeapYear_iff] at hL
    push_neg at hL
    unfold daysBeforeYear
    push_cast
    omega
  · rw [if_pos rfl]
    rw [isLeapYear_iff] at hL
    unfold daysBeforeYear
    push_cast
    omega

lemma dby_mono {y y' : Nat} (h : y ≤ y') : daysBeforeYear y ≤ daysBeforeYear y' := by
  induction y' with
  | zero =>
    have hz : y = 0 := by omega
    subst hz
    exact le_refl _
  | succ k ih =>
    rcases Nat.lt_or_ge y (k + 1) with h2 | h2
    · have := ih (by omega)
      rw [dby_succ]
      split <;> omega
    · have he : y = k + 1 := by omega
      subst he
      exact le_refl _

lemma toOrdinal_lt_of_lt {a b : Date} (ha : a.isValid = true) (hb : b.isValid = true)
    (h : Date.lt a b = true) : a.toOrdinal < b.toOrdinal := by
  obtain ⟨ay, am, ad⟩ := a
  obtain ⟨by', bm, bd⟩ := b
  simp [Date.isValid] at ha hb
  simp [Date.lt] at h
  simp only [Date.toOrdinal]
  rcases h with hy | ⟨hy, hm | ⟨hm, hd⟩⟩
  · have h1 := dbm_add_day_le ay am ad (by omega) (by omega) (by omega)
    have h2 := dby_succ ay
    have h3 : daysBeforeYear (ay + 1) ≤ daysBeforeYear by' := dby_mono (by omega)
    have h4 : (0 : Int) ≤ (daysBeforeMonth by' bm : Int) := by positivity
    cases hL : isLeapYear ay <;> rw [hL] at h1 h2 <;> simp at h1 h2 <;> omega
  · subst hy
    have h1 : daysBeforeMonth ay am + ad ≤ daysBeforeMonth ay (am + 1) := by
      rw [dbm_succ ay am (by omega)]
      omega
    have h2 : daysBeforeMonth ay (am + 1) ≤ daysBeforeMonth ay bm :=
      dbm_mono ay (by omega)
    omega
  · subst hy
    subst hm
    omega

lemma le_ord_iff {a b : Date} (ha : a.isValid = true) (hb : b.isValid = true) :
    Date.le a b = true ↔ a.toOrdinal ≤ b.toOrdinal := by
  constructor
  · intro h
    have h' : Date.lt a b = true ∨ a = b := by simpa [Date.le] using h
    rcases h' with h' | rfl
    · exact le_of_lt (toOrdinal_lt_of_lt ha hb h')
    · exact le_refl _
  · intro h
    by_contra hc
    have := toOrdinal_lt_of_lt hb ha (date_lt_of_not_le hc)
    omega

/-- C2: for every pair of parsed (hence constructible) bill and
residency intervals, the engine's overlap count equals
max 0 of (min of the ends minus max of the starts, in days, plus one);
in particular it is 0 when the intervals do not intersect and 1 when
record and bill both cover one identical single day. -/
theorem c2_overlap_days (bs be ss se : Date)
    (h1 : bs.isValid = true) (h2 : be.isValid = true)
    (h3 : ss.isValid = true) (h4 : se.isValid = true) :
    overlapDays bs be ss se = max 0 (dateSubDays (dmin be se) (dmax bs ss) + 1) ∧
    ((∀ x : Date, x.isValid = true →
        ¬(Date.le bs x = true ∧ Date.le x be = true ∧
          Date.le ss x = true ∧ Date.le x se = true)) →
      overlapDays bs be ss se = 0) ∧
    (bs = be → be = ss → ss = se → overlapDays bs be ss se = 1) := by
  have hos : (dmax bs ss).isValid = true := dmax_valid h1 h3
  have hoe : (dmin be se).isValid = true := dmin_valid h2 h4
  refine ⟨?_, ?_, ?_⟩
  · simp only [overlapDays]
    cases hle : Date.le (dmax bs ss) (dmin be se)
    · have hlt := date_lt_of_not_le (a := dmax bs ss) (b := dmin be se) (by simp [hle])
      have hord := toOrdinal_lt_of_lt hoe hos hlt
      simp only [Bool.false_eq_true, if_false, dateSubDays]
      omega
    · have hord := (le_ord_iff hos hoe).mp hle
      simp only [if_true, dateSubDays]
      omega
  · intro h
    simp only [overlapDays]
    cases hle : Date.le (dmax bs ss) (dmin be se)
    · simp
    · exact absurd
        ⟨le_dmax_left bs ss, date_le_trans hle (dmin_le_left be se),
          le_dmax_right bs ss, date_le_trans hle (dmin_le_right be se)⟩
        (h (dmax bs ss) hos)
  · intro e1 e2 e3
    subst e1
    subst e2
    subst e3
    have hmax : dmax bs bs = bs := by
      unfold dmax
      split <;> rfl
    have hmin : dmin bs bs = bs := by
      unfold dmin
      split <;> rfl
    simp only [overlapDays, hmax, hmin, date_le_refl, if_true, dateSubDays]
    omega

/-- Witness for C2 at the concrete water-bill scenario dates. -/
theorem c2_overlap_days_witness :
    overlapDays (Date.mk 2023 9 1) (Date.mk 2023 10 31)
        (Date.mk 2023 9 15) (Date.mk 2023 11 4) =
      max 0 (dateSubDays (dmin (Date.mk 2023 10 31) (Date.mk 2023 11 4))
        (dmax (Date.mk 2023 9 1) (Date.mk 2023 9 15)) + 1) :=
  (c2_overlap_days (Date.mk 2023 9 1) (Date.mk 2023 10 31)
    (Date.mk 2023 9 15) (Date.mk 2023 11 4)
    (by decide) (by decide) (by decide) (by decide)).1

lemma overlap_zero_of_reversed {bs be ss se : Date}
    (h : Date.lt be bs = true) : overlapDays bs be ss se = 0 := by
  have hf : Date.le (dmax bs ss) (dmin be se) = false :=
    date_sandwich (dmin_le_left be se) h (le_dmax_left bs ss)
  simp [overlapDays, hf]

/-- C8: a bill whose parsed period start is strictly after its period
end contributes zero overlap days to every residency record, its total
person-days is zero, and the computation is not rejected: the cost
table is still produced. -/
theorem c8_reversed_bill (bills : List BillRow) (students : List StudentRow)
    (pb : List BillP) (ps : List StudentP) (b : BillP)
    (hb : parseBills bills = some pb) (hs : parseStudents students = some ps)
    (_hmem : b ∈ pb) (hrev : Date.lt b.bEnd b.bStart = true) :
    (∀ s : StudentP, overlapB b s = 0) ∧ totalPD ps b = 0 ∧
      (calculate_costs bills students).costTable.isSome = true := by
  have hz : ∀ s : StudentP, overlapB b s = 0 := fun s => overlap_zero_of_reversed hrev
  refine ⟨hz, ?_, ?_⟩
  · apply List.sum_eq_zero
    intro x hx
    obtain ⟨s, _, rfl⟩ := List.mem_map.mp hx
    exact hz s
  · simp [calculate_costs, hb, hs]

/-- The bills table of the C8 witness: one bill whose ROC period runs
backwards (start after end) but with well-formed dates. -/
def c8bills : List BillRow :=
  [BillRow.mk ['w'] 100 (some ("112/10/31".toList)) (some ("112/09/01".toList)) none none]

/-- The students table of the C8 witness. -/
def c8students : List StudentRow :=
  [StudentRow.mk ['a'] (some ("112/09/01".toList)) (some ("112/09/30".toList)) none none]

/-- Witness for C8 at a concrete reversed-period bill. -/
theorem c8_reversed_bill_witness :
    totalPD [StudentP.mk ['a'] (Date.mk 2023 9 1) (Date.mk 2023 9 30)]
        (BillP.mk ['w'] 100 (Date.mk 2023 10 31) (Date.mk 2023 9 1)) = 0 ∧
      (calculate_costs c8bills c8students).costTable.isSome = true := by
  have h := c8_reversed_bill c8bills c8students
    [BillP.mk ['w'] 100 (Date.mk 2023 10 31) (Date.mk 2023 9 1)]
    [StudentP.mk ['a'] (Date.mk 2023 9 1) (Date.mk 2023 9 30)]
    (BillP.mk ['w'] 100 (Date.mk 2023 10 31) (Date.mk 2023 9 1))
    (by decide) (by decide) (by decide) (by decide)
  exact ⟨h.2.1, h.2.2⟩

lemma sum_map_partition {α γ : Type} [AddCommMonoid γ] (l : List α) (p : α → Bool)
    (f : α → γ) :
    ((l.filter p).map f).sum + ((l.filter fun x => !(p x)).map f).sum = (l.map f).sum := by
  induction l with
  | nil => simp
  | cons a t ih =>
    cases hp : p a
    · simp [List.filter_cons, hp, ← ih, add_left_comm]
    · simp [List.filter_cons, hp, ← ih, add_assoc]

lemma uniqueFirst_mem {α : Type} [BEq α] {x : α} :
    ∀ {l : List α}, x ∈ uniqueFirst l → x ∈ l := by
  intro l
  induction l using uniqueFirst.induct with
  | case1 => simp [uniqueFirst]
  | case2 a t ih =>
    intro hx
    rw [uniqueFirst] at hx
    rcases List.mem_cons.mp hx with h | h
    · exact h ▸ List.mem_cons_self a t
    · exact List.mem_cons_of_mem a (List.mem_of_mem_filter (ih h))

lemma sum_over_uniqueFirst {α β γ : Type} [BEq β] [LawfulBEq β] [AddCommMonoid γ] :
    ∀ (n : Nat) (l : List α), l.length ≤ n → ∀ (key : α → β) (f : α → γ),
      ((uniqueFirst (l.map key)).map
          (fun k => ((l.filter fun x => key x == k).map f).sum)).sum
        = (l.map f).sum := by
  intro n
  induction n with
  | zero =>
    intro l hl key f
    have hnil : l = [] := List.length_eq_zero.mp (by omega)
    subst hnil
    simp [uniqueFirst]
  | succ n ih =>
    intro l hl key f
    cases l with
    | nil => simp [uniqueFirst]
    | cons a t =>
      have hfm : (t.map key).filter (fun x => !(x == key a))
          = (t.filter fun x => !(key x == key a)).map key := by
        rw [List.filter_map]
        rfl
      have hlen : (t.filter fun x => !(key x == key a)).length ≤ n := by
        have := List.length_filter_le (fun x => !(key x == key a)) t
        simp at hl
        omega
      have hinner : ∀ k ∈ uniqueFirst ((t.filter fun x => !(key x == key a)).map key),
          (((a :: t).filter fun x => key x == k).map f).sum
            = (((t.filter fun x => !(key x == key a)).filter
                fun x => key x == k).map f).sum := by
        intro k hk
        have hkmem := uniqueFirst_mem hk
        obtain ⟨x, hx1, hx2⟩ := List.mem_map.mp hkmem
        have hxne : (!(key x == key a)) = true := (List.mem_filter.mp hx1).2
        have hkne : ¬ k = key a := by
          rw [← hx2]
          simpa using hxne
        have h1 : ((a :: t).filter fun x => key x == k) = t.filter fun x => key x == k := by
          rw [List.filter_cons]
          have hf : (key a == k) = false := by
            rw [beq_eq_false_iff_ne]
            intro hc
            exact hkne hc.symm
          simp [hf]
        have h2 : (t.filter fun x => key x == k)
            = ((t.filter fun x => !(key x == key a)).filter fun x => key x == k) := by
          rw [List.filter_filter]
          apply List.filter_congr
          intro x _
          cases hxk : (key x == k)
          · simp
          · have hxkeq : key x = k := by simpa using hxk
            have h3 : (!(key x == key a)) = true := by
              rw [Bool.not_eq_true', beq_eq_false_iff_ne, hxkeq]
              exact hkne
            simp [h3]
        rw [h1, h2]
      calc ((uniqueFirst ((a :: t).map key)).map
              (fun k => (((a :: t).filter fun x => key x == k).map f).sum)).sum
          = (((a :: t).filter fun x => key x == key a).map f).sum
            + ((uniqueFirst ((t.map key).filter fun x => !(x == key a))).map
                (fun k => (((a :: t).filter fun x => key x == k).map f).sum)).sum := by
            simp [uniqueFirst]
        _ = (((a :: t).filter fun x => key x == key a).map f).sum
            + ((uniqueFirst ((t.filter fun x => !(key x == key a)).map key)).map
                (fun k => (((t.filter fun x => !(key x == key a)).filter
                    fun x => key x == k).map f).sum)).sum := by
            rw [hfm, List.map_congr_left hinner]
        _ = (((a :: t).filter fun x => key x == key a).map f).sum
            + ((t.filter fun x => !(key x == key a)).map f).sum := by
            rw [ih _ hlen key f]
        _ = (f a + ((t.filter fun x => key x == key a).map f).sum)
            + ((t.filter fun x => !(key x == key a)).map f).sum := by
            rw [List.filter_cons]
            simp
        _ = f a + (t.map f).sum := by
            rw [add_assoc, sum_map_partition t (fun x => key x == key a) f]
        _ = ((a :: t).map f).sum := by
            simp

lemma overlapDays_nonneg {bs be ss se : Date} (h1 : bs.isValid = true)
    (h2 : be.isValid = true) (h3 : ss.isValid = true) (h4 : se.isValid = true) :
    0 ≤ overlapDays bs be ss se := by
  simp only [overlapDays]
  cases hle : Date.le (dmax bs ss) (dmin be se)
  · simp
  · have := (le_ord_iff (dmax_valid h1 h3) (dmin_valid h2 h4)).mp hle
    simp only [if_true, dateSubDays]
    omega

lemma daysFor_nonneg {ps : List StudentP} {b : BillP} {n : List Char}
    (hb1 : b.bStart.isValid = true) (hb2 : b.bEnd.isValid = true)
    (hps : ∀ s ∈ ps, s.sStart.isValid = true ∧ s.sEnd.isValid = true) :
    0 ≤ daysFor ps b n := by
  apply List.sum_nonneg
  intro x hx
  obtain ⟨s, hs, rfl⟩ := List.mem_map.mp hx
  have hmem := List.mem_of_mem_filter hs
  exact overlapDays_nonneg hb1 hb2 (hps s hmem).1 (hps s hmem).2

lemma sum_daysFor (ps : List StudentP) (b : BillP) :
    ((residentNames ps).map fun n => daysFor ps b n).sum = totalPD ps b := by
  have h := sum_over_uniqueFirst (γ := Int) ps.length ps (le_refl _)
    (fun s => s.studentName) (fun s => overlapB b s)
  exact h

lemma listSum_intCast {α : Type} (l : List α) (g : α → Int) :
    (l.map fun a => ((g a : Int) : ℚ)).sum = (((l.map g).sum : Int) : ℚ) := by
  induction l with
  | nil => simp
  | cons a t ih => simp [ih]

lemma sum_share (ps : List StudentP) (b : BillP)
    (hb1 : b.bStart.isValid = true) (hb2 : b.bEnd.isValid = true)
    (hps : ∀ s ∈ ps, s.sStart.isValid = true ∧ s.sEnd.isValid = true)
    (hT : 0 < totalPD ps b) :
    ((residentNames ps).map fun n => share ps b n).sum = b.amount := by
  have hTQ : ((totalPD ps b : Int) : ℚ) ≠ 0 := by
    rw [Int.cast_ne_zero]
    omega
  have hcong : ∀ n ∈ residentNames ps,
      share ps b n = (daysFor ps b n : ℚ) * (b.amount / (totalPD ps b : ℚ)) := by
    intro n _
    simp only [share, if_pos hT]
    by_cases hd : 0 < daysFor ps b n
    · rw [if_pos hd]
    · rw [if_neg hd]
      have hnn : 0 ≤ daysFor ps b n := daysFor_nonneg hb1 hb2 hps
      have h0 : daysFor ps b n = 0 := by omega
      rw [h0]
      simp
  rw [List.map_congr_left hcong, List.sum_map_mul_right]
  have hcast : ((residentNames ps).map fun n => ((daysFor ps b n : Int) : ℚ)).sum
      = ((totalPD ps b : Int) : ℚ) := by
    rw [listSum_intCast, sum_daysFor]
  rw [hcast, mul_comm, div_mul_eq_mul_div, mul_div_assoc, div_self hTQ, mul_one]

lemma roundHalfEven_abs_le (q : ℚ) : |((roundHalfEven q : Int) : ℚ) - q| ≤ 1 / 2 := by
  have h1 : (⌊q⌋ : ℚ) ≤ q := Int.floor_le q
  have h2 : q < ⌊q⌋ + 1 := Int.lt_floor_add_one q
  unfold roundHalfEven
  split_ifs with ha hb hc
  · rw [abs_le]
    constructor <;> linarith
  · rw [abs_le]
    constructor <;> push_cast <;> linarith
  · rw [abs_le]
    constructor <;> linarith
  · rw [abs_le]
    constructor <;> push_cast <;> linarith

lemma abs_listSum_sub_le {α : Type} (l : List α) (f g : α → ℚ)
    (h : ∀ a ∈ l, |f a - g a| ≤ 1 / 2) :
    |(l.map f).sum - (l.map g).sum| ≤ (l.length : ℚ) * (1 / 2) := by
  induction l with
  | nil => simp
  | cons a t ih =>
    simp only [List.map_cons, List.sum_cons, List.length_cons]
    have hh1 := h a (List.mem_cons_self a t)
    have hh2 := ih fun x hx => h x (List.mem_cons_of_mem a hx)
    have h3 : f a + (t.map f).sum - (g a + (t.map g).sum)
        = (f a - g a) + ((t.map f).sum - (t.map g).sum) := by ring
    rw [h3]
    calc |(f a - g a) + ((t.map f).sum - (t.map g).sum)|
        ≤ |f a - g a| + |(t.map f).sum - (t.map g).sum| := abs_add _ _
      _ ≤ 1 / 2 + (t.length : ℚ) * (1 / 2) := by linarith
      _ = ((t.length + 1 : ℕ) : ℚ) * (1 / 2) := by push_cast; ring

/-- C1: for a bill with positive total person-days over parsed tables,
the rounded per-resident shares of that bill sum to the bill amount
within plus or minus one currency unit per resident (rounding is per
resident per bill). -/
theorem c1_conservation (ps : List StudentP) (b : BillP)
    (hb1 : b.bStart.isValid = true) (hb2 : b.bEnd.isValid = true)
    (hps : ∀ s ∈ ps, s.sStart.isValid = true ∧ s.sEnd.isValid = true)
    (hT : 0 < totalPD ps b) :
    |((residentNames ps).map
        fun n => ((roundHalfEven (share ps b n) : Int) : ℚ)).sum - b.amount|
      ≤ ((residentNames ps).length : ℚ) := by
  have hs := sum_share ps b hb1 hb2 hps hT
  have habs := abs_listSum_sub_le (residentNames ps)
    (fun n => ((roundHalfEven (share ps b n) : Int) : ℚ))
    (fun n => share ps b n)
    (fun n _ => roundHalfEven_abs_le (share ps b n))
  rw [hs] at habs
  have hlen : (0 : ℚ) ≤ ((residentNames ps).length : ℚ) := by positivity
  linarith

/-- The residency rows of the C1 witness. -/
def c1students : List StudentP :=
  [StudentP.mk ['a'] (Date.mk 2023 9 1) (Date.mk 2023 9 30),
   StudentP.mk ['b'] (Date.mk 2023 9 15) (Date.mk 2023 11 4)]

/-- The bill of the C1 witness. -/
def c1bill : BillP := BillP.mk ['w'] 450 (Date.mk 2023 9 1) (Date.mk 2023 10 31)

/-- Witness for C1 at the concrete water-bill scenario. -/
theorem c1_conservation_witness :
    0 < totalPD c1students c1bill ∧
      |((residentNames c1students).map
          fun n => ((roundHalfEven (share c1students c1bill n) : Int) : ℚ)).sum
        - c1bill.amount| ≤ ((residentNames c1students).length : ℚ) :=
  ⟨by decide, c1_conservation c1students c1bill (by decide) (by decide)
    (by decide) (by decide)⟩

lemma anomaly_count_eq_one {ps : List StudentP} {pb : List BillP} {b : BillP}
    (hmem : b ∈ pb) (hnodup : (pb.map fun x => x.billName).Nodup)
    (hz : ¬ 0 < totalPD ps b) :
    (anomalyLogOf ps pb).count (LogEntry.anomaly b.billName b.amount) = 1 := by
  induction pb with
  | nil => simp at hmem
  | cons x rest ih =>
    rw [List.map_cons, List.nodup_cons] at hnodup
    obtain ⟨hx, hrest⟩ := hnodup
    rcases List.mem_cons.mp hmem with rfl | hm
    · have h0 : (anomalyLogOf ps rest).count (LogEntry.anomaly b.billName b.amount) = 0 := by
        rw [List.count_eq_zero]
        intro hcon
        obtain ⟨b', hb', heq⟩ := List.mem_filterMap.mp hcon
        split_ifs at heq
        injection heq with e0
        injection e0 with e1 e2
        exact hx (e1 ▸ List.mem_map.mpr ⟨b', hb', rfl⟩)
      simp only [anomalyLogOf, List.filterMap_cons, if_neg hz]
      rw [List.count_cons_self]
      rw [show (anomalyLogOf ps rest) = rest.filterMap
          (fun b => if 0 < totalPD ps b then none
            else some (LogEntry.anomaly b.billName b.amount)) from rfl] at h0
      omega
    · have hxb : ¬ x.billName = b.billName := by
        intro hc
        exact hx (hc ▸ List.mem_map.mpr ⟨b, hm, rfl⟩)
      have hcount := ih hm hrest
      by_cases hpos : 0 < totalPD ps x
      · simpa only [anomalyLogOf, List.filterMap_cons, if_pos hpos] using hcount
      · simp only [anomalyLogOf, List.filterMap_cons, if_neg hpos]
        rw [List.count_cons_of_ne]
        · exact hcount
        · intro hc
          injection hc with e1 e2
          exact hxb e1.symm

/-- C4: over parsed tables with distinct bill names, a bill with zero
total person-days yields exactly one anomaly log entry carrying that
bill's name and amount, contributes a zero share to every resident
name (so to every per-bill cell and running total), and the result
tables are still produced. -/
theorem c4_zero_person_day_bill (bills : List BillRow) (students : List StudentRow)
    (pb : List BillP) (ps : List StudentP) (b : BillP)
    (hb : parseBills bills = some pb) (hs : parseStudents students = some ps)
    (hmem : b ∈ pb) (hz : totalPD ps b = 0)
    (hnodup : (pb.map fun x => x.billName).Nodup) :
    (calculate_costs bills students).log.count (LogEntry.anomaly b.billName b.amount) = 1 ∧
      (∀ n : List Char, share ps b n = 0) ∧
      (calculate_costs bills students).costTable.isSome = true := by
  refine ⟨?_, ?_, ?_⟩
  · have hlog : (calculate_costs bills students).log = anomalyLogOf ps pb := by
      simp [calculate_costs, hb, hs]
    rw [hlog]
    exact anomaly_count_eq_one hmem hnodup (by omega)
  · intro n
    simp [share, hz]
  · simp [calculate_costs, hb, hs]

/-- The bills table of the C4 witness: a covered bill and a bill whose
period nobody overlaps. -/
def c4bills : List BillRow :=
  [BillRow.mk ['w'] 450 (some ("112/09/01".toList)) (some ("112/09/30".toList)) none none,
   BillRow.mk ['g'] 200 (some ("113/01/01".toList)) (some ("113/01/31".toList)) none none]

/-- The students table of the C4 witness. -/
def c4students : List StudentRow :=
  [StudentRow.mk ['a'] (some ("112/09/01".toList)) (some ("112/09/30".toList)) none none]

/-- The parsed bills of the C4 witness. -/
def c4pb : List BillP :=
  [BillP.mk ['w'] 450 (Date.mk 2023 9 1) (Date.mk 2023 9 30),
   BillP.mk ['g'] 200 (Date.mk 2024 1 1) (Date.mk 2024 1 31)]

/-- The parsed students of the C4 witness. -/
def c4ps : List StudentP :=
  [StudentP.mk ['a'] (Date.mk 2023 9 1) (Date.mk 2023 9 30)]

/-- Witness for C4 at a concrete uncovered bill. -/
theorem c4_zero_person_day_bill_witness :
    (calculate_costs c4bills c4students).log.count (LogEntry.anomaly ['g'] 200) = 1 ∧
      share c4ps (BillP.mk ['g'] 200 (Date.mk 2024 1 1) (Date.mk 2024 1 31)) ['a'] = 0 ∧
      (calculate_costs c4bills c4students).costTable.isSome = true := by
  have h := c4_zero_person_day_bill c4bills c4students c4pb c4ps
    (BillP.mk ['g'] 200 (Date.mk 2024 1 1) (Date.mk 2024 1 31))
    (by decide) (by decide) (by decide) (by decide) (by decide)
  exact ⟨h.1, h.2.1 ['a'], h.2.2⟩

lemma parseBills_none_iff (bills : List BillRow) :
    parseBills bills = none ↔ billsHaveBadDate bills = true := by
  induction bills with
  | nil => simp [parseBills, billsHaveBadDate]
  | cons r rs ih =>
    cases h1 : parse_roc_date r.rawStart with
    | none => simp [parseBills, h1, billsHaveBadDate]
    | some d1 =>
      cases h2 : parse_roc_date r.rawEnd with
      | none => simp [parseBills, h1, h2, billsHaveBadDate]
      | some d2 =>
        cases h3 : parseBills rs with
        | none =>
          have hbad2 : (rs.any fun r =>
              (parse_roc_date r.rawStart).isNone || (parse_roc_date r.rawEnd).isNone)
                = true := ih.mp h3
          constructor
          · intro _
            simp only [billsHaveBadDate, List.any_cons, hbad2, Bool.or_true]
          · intro _
            simp [parseBills, h1, h2, h3]
        | some l =>
          have hstep : billsHaveBadDate (r :: rs) = billsHaveBadDate rs := by
            simp only [billsHaveBadDate, List.any_cons, h1, h2, Option.isNone_some,
              Bool.or_self, Bool.false_or]
          rw [hstep]
          constructor
          · intro hc
            simp [parseBills, h1, h2, h3] at hc
          · intro hc
            have hcc := ih.mpr hc
            rw [h3] at hcc
            exact absurd hcc (by simp)

lemma parseStudents_none_iff (students : List StudentRow) :
    parseStudents students = none ↔ studentsHaveBadDate students = true := by
  induction students with
  | nil => simp [parseStudents, studentsHaveBadDate]
  | cons r rs ih =>
    cases h1 : parse_roc_date r.rawStart with
    | none => simp [parseStudents, h1, studentsHaveBadDate]
    | some d1 =>
      cases h2 : parse_roc_date r.rawEnd with
      | none => simp [parseStudents, h1, h2, studentsHaveBadDate]
      | some d2 =>
        cases h3 : parseStudents rs with
        | none =>
          have hbad2 : (rs.any fun r =>
              (parse_roc_date r.rawStart).isNone || (parse_roc_date r.rawEnd).isNone)
                = true := ih.mp h3
          constructor
          · intro _
            simp only [studentsHaveBadDate, List.any_cons, hbad2, Bool.or_true]
          · intro _
            simp [parseStudents, h1, h2, h3]
        | some l =>
          have hstep : studentsHaveBadDate (r :: rs) = studentsHaveBadDate rs := by
            simp only [studentsHaveBadDate, List.any_cons, h1, h2, Option.isNone_some,
              Bool.or_self, Bool.false_or]
          rw [hstep]
          constructor
          · intro hc
            simp [parseStudents, h1, h2, h3] at hc
          · intro hc
            have hcc := ih.mpr hc
            rw [h3] at hcc
            exact absurd hcc (by simp)

/-- C3: as soon as any date cell of either table fails to parse, the
three result tables are none and the log is exactly one aggregate
error naming the offending table, bills being checked first. -/
theorem c3_aggregate_error (bills : List BillRow) (students : List StudentRow)
    (h : billsHaveBadDate bills = true ∨ studentsHaveBadDate students = true) :
    (calculate_costs bills students).costTable = none ∧
      (calculate_costs bills students).daysView = none ∧
      (calculate_costs bills students).daysRaw = none ∧
      (calculate_costs bills students).log
        = [LogEntry.dateError
            (if billsHaveBadDate bills then ErrSrc.billTable else ErrSrc.studentTable)] := by
  by_cases hb : billsHaveBadDate bills = true
  · have hpb : parseBills bills = none := (parseBills_none_iff bills).mpr hb
    simp [calculate_costs, hpb, hb]
  · have hsb : studentsHaveBadDate students = true := by tauto
    have hps : parseStudents students = none := (parseStudents_none_iff students).mpr hsb
    have hpb : parseBills bills ≠ none := fun hc => hb ((parseBills_none_iff bills).mp hc)
    obtain ⟨pb, hpb2⟩ := Option.ne_none_iff_exists'.mp hpb
    rw [Bool.not_eq_true] at hb
    simp [calculate_costs, hpb2, hps, hb]

/-- The bills table of the C3 witness, holding the malformed date of
scenario C. -/
def c3bills : List BillRow :=
  [BillRow.mk ['w'] 450 (some ("13/45/99".toList)) (some ("112/10/31".toList)) none none]

/-- The students table of the C3 witness; its dates are well formed. -/
def c3students : List StudentRow :=
  [StudentRow.mk ['a'] (some ("112/09/01".toList)) (some ("112/09/30".toList)) none none]

/-- Witness for C3 at a concrete malformed bill date. -/
theorem c3_aggregate_error_witness :
    (calculate_costs c3bills c3students).costTable = none ∧
      (calculate_costs c3bills c3students).daysView = none ∧
      (calculate_costs c3bills c3students).daysRaw = none ∧
      (calculate_costs c3bills c3students).log
        = [LogEntry.dateError
            (if billsHaveBadDate c3bills then ErrSrc.billTable else ErrSrc.studentTable)] :=
  c3_aggregate_error c3bills c3students (Or.inl (by decide))

/-- The user-entered fields of a bill row, without the derived columns. -/
def BillRow.userPart (r : BillRow) :
    List Char × ℚ × Option (List Char) × Option (List Char) :=
  (r.billName, r.amount, r.rawStart, r.rawEnd)

/-- The user-entered fields of a residency row, without the derived
columns. -/
def StudentRow.userPart (r : StudentRow) :
    List Char × Option (List Char) × Option (List Char) :=
  (r.studentName, r.rawStart, r.rawEnd)

/-- C9 amended: calculate_costs mutates both input tables by writing
the two derived date columns onto every row (even on the error path),
but preserves every user-entered field, the row count and the row
order of both tables. -/
theorem c9_mutation_shape (bills : List BillRow) (students : List StudentRow) :
    (calculate_costs bills students).billsAfter = bills.map addBillParsed ∧
      (calculate_costs bills students).studentsAfter = students.map addStudentParsed ∧
      (calculate_costs bills students).billsAfter.map BillRow.userPart
        = bills.map BillRow.userPart ∧
      (calculate_costs bills students).studentsAfter.map StudentRow.userPart
        = students.map StudentRow.userPart := by
  have h1 : (calculate_costs bills students).billsAfter = bills.map addBillParsed := by
    unfold calculate_costs
    cases parseBills bills <;> cases parseStudents students <;> rfl
  have h2 : (calculate_costs bills students).studentsAfter
      = students.map addStudentParsed := by
    unfold calculate_costs
    cases parseBills bills <;> cases parseStudents students <;> rfl
  refine ⟨h1, h2, ?_, ?_⟩
  · rw [h1, List.map_map]
    rfl
  · rw [h2, List.map_map]
    rfl

/-- The bills table of the C9 counterexample. -/
def c9bills : List BillRow :=
  [BillRow.mk ['w'] 450 (some ("112/09/01".toList)) (some ("112/10/31".toList)) none none]

/-- The students table of the C9 counterexample. -/
def c9students : List StudentRow :=
  [StudentRow.mk ['a'] (some ("112/09/01".toList)) (some ("112/09/30".toList)) none none]

/-- C9 counterexample: invoking calculate_costs on concrete well-formed
tables leaves both input tables changed, with the two derived date
columns added, refuting the claim that the inputs are left unchanged. -/
theorem c9_counterexample :
    (calculate_costs c9bills c9students).billsAfter ≠ c9bills ∧
      (calculate_costs c9bills c9students).studentsAfter ≠ c9students := by
  constructor <;> decide

lemma oor_some {α : Type} (x : α) (b : Option α) : oor (some x) b = some x := rfl

lemma oor_none {α : Type} (b : Option α) : oor none b = b := rfl

lemma isDigit_digitChar {k : Nat} (h : k ≤ 9) : isDigit (digitChar k) = true := by
  interval_cases k <;> decide

lemma toNat_digitChar {k : Nat} (h : k ≤ 9) : (digitChar k).toNat = 48 + k := by
  interval_cases k <;> decide

lemma not_isWs_of_isDigit {c : Char} (h : isDigit c = true) : isWs c = false := by
  simp [isDigit] at h
  simp [isWs]
  omega

lemma not_isSep_of_isDigit {c : Char} (h : isDigit c = true) : isSep c = false := by
  simp [isDigit] at h
  simp only [isSep, Bool.or_eq_false_iff, beq_eq_false_iff_ne, ne_eq]
  refine ⟨⟨fun hc => ?_, fun hc => ?_⟩, fun hc => ?_⟩ <;>
    (subst hc; exact absurd h (by decide))

lemma natCharsAux_small {f k : Nat} (hf : 1 ≤ f) (h : k < 10) :
    natCharsAux f k = [digitChar k] := by
  obtain ⟨g, rfl⟩ : ∃ g, f = g + 1 := ⟨f - 1, by omega⟩
  simp [natCharsAux, h]

lemma natChars_small {n : Nat} (h : n < 10) : natChars n = [digitChar n] := by
  rw [show natChars n = natCharsAux (n + 1) n from rfl]
  exact natCharsAux_small (by omega) h

lemma natChars_two {n : Nat} (h1 : 10 ≤ n) (h2 : n ≤ 99) :
    natChars n = [digitChar (n / 10), digitChar (n % 10)] := by
  rw [show natChars n = natCharsAux (n + 1) n from rfl]
  rw [show natCharsAux (n + 1) n
      = if n < 10 then [digitChar n]
        else natCharsAux n (n / 10) ++ [digitChar (n % 10)] from rfl]
  rw [if_neg (by omega)]
  rw [natCharsAux_small (by omega) (by omega)]
  rfl

lemma natChars_three {n : Nat} (h1 : 100 ≤ n) (h2 : n ≤ 999) :
    natChars n = [digitChar (n / 100), digitChar (n / 10 % 10), digitChar (n % 10)] := by
  rw [show natChars n = natCharsAux (n + 1) n from rfl]
  rw [show natCharsAux (n + 1) n
      = if n < 10 then [digitChar n]
        else natCharsAux n (n / 10) ++ [digitChar (n % 10)] from rfl]
  rw [if_neg (by omega)]
  obtain ⟨g, rfl⟩ : ∃ g, n = g + 1 := ⟨n - 1, by omega⟩
  rw [show natCharsAux (g + 1) ((g + 1) / 10)
      = if (g + 1) / 10 < 10 then [digitChar ((g + 1) / 10)]
        else natCharsAux g ((g + 1) / 10 / 10) ++ [digitChar ((g + 1) / 10 % 10)] from rfl]
  rw [if_neg (by omega)]
  rw [natCharsAux_small (by omega) (by omega)]
  rw [Nat.div_div_eq_div_mul]
  rfl

lemma digitsVal_pair (a b : Char) :
    digitsVal [a, b] = 10 * (a.toNat - 48) + (b.toNat - 48) := by
  have e : digitsVal [a, b] = 10 * (10 * 0 + (a.toNat - 48)) + (b.toNat - 48) := rfl
  omega

lemma digitsVal_triple (a b c : Char) :
    digitsVal [a, b, c] = 100 * (a.toNat - 48) + 10 * (b.toNat - 48) + (c.toNat - 48) := by
  have e : digitsVal [a, b, c]
      = 10 * (10 * (10 * 0 + (a.toNat - 48)) + (b.toNat - 48)) + (c.toNat - 48) := rfl
  omega

lemma natChars_shape2 {n : Nat} (h1 : 10 ≤ n) (h2 : n ≤ 99) :
    ∃ a b, natChars n = [a, b] ∧ isDigit a = true ∧ isDigit b = true ∧
      digitsVal [a, b] = n := by
  refine ⟨digitChar (n / 10), digitChar (n % 10), natChars_two h1 h2,
    isDigit_digitChar (by omega), isDigit_digitChar (by omega), ?_⟩
  rw [digitsVal_pair, toNat_digitChar (by omega), toNat_digitChar (by omega)]
  omega

lemma natChars_shape3 {n : Nat} (h1 : 100 ≤ n) (h2 : n ≤ 999) :
    ∃ a b c, natChars n = [a, b, c] ∧ isDigit a = true ∧ isDigit b = true ∧
      isDigit c = true ∧ digitsVal [a, b, c] = n := by
  refine ⟨digitChar (n / 100), digitChar (n / 10 % 10), digitChar (n % 10),
    natChars_three h1 h2, isDigit_digitChar (by omega), isDigit_digitChar (by omega),
    isDigit_digitChar (by omega), ?_⟩
  rw [digitsVal_triple, toNat_digitChar (by omega), toNat_digitChar (by omega),
    toNat_digitChar (by omega)]
  omega

lemma pad2_shape {n : Nat} (h : n ≤ 99) :
    ∃ a b, pad2 n = [a, b] ∧ isDigit a = true ∧ isDigit b = true ∧
      digitsVal [a, b] = n := by
  by_cases h10 : n < 10
  · refine ⟨'0', digitChar n, ?_, by decide, isDigit_digitChar (by omega), ?_⟩
    · unfold pad2
      rw [if_pos h10, natChars_small h10]
    · rw [digitsVal_pair, toNat_digitChar (by omega)]
      have h0 : ('0' : Char).toNat = 48 := rfl
      omega
  · obtain ⟨a, b, heq, ha, hb, hv⟩ := natChars_shape2 (by omega) h
    refine ⟨a, b, ?_, ha, hb, hv⟩
    unfold pad2
    rw [if_neg h10, heq]

lemma takeDigits_append :
    ∀ (ds : List Char), (∀ c ∈ ds, isDigit c = true) →
      ∀ r, takeDigits ds.length (ds ++ r) = some (ds, r) := by
  intro ds
  induction ds with
  | nil => intro _ r; rfl
  | cons c t ih =>
    intro h r
    have hc := h c (List.mem_cons_self c t)
    simp only [List.length_cons, List.cons_append, takeDigits, hc, if_true]
    have hih := ih (fun x hx => h x (List.mem_cons_of_mem c hx)) r
    rw [show takeDigits t.length (t.append r) = takeDigits t.length (t ++ r) from rfl, hih]

lemma takeDigits_sound :
    ∀ (n : Nat) (l p r : List Char), takeDigits n l = some (p, r) →
      l = p ++ r ∧ p.length = n ∧ ∀ c ∈ p, isDigit c = true := by
  intro n
  induction n with
  | zero =>
    intro l p r h
    simp only [takeDigits, Option.some_inj, Prod.mk.injEq] at h
    obtain ⟨hp, hr⟩ := h
    subst hp
    subst hr
    simp
  | succ k ih =>
    intro l p r h
    cases l with
    | nil => simp [takeDigits] at h
    | cons c s =>
      simp only [takeDigits] at h
      by_cases hc : isDigit c = true
      · rw [if_pos hc] at h
        cases ht : takeDigits k s with
        | none => rw [ht] at h; simp at h
        | some pr =>
          obtain ⟨p', r'⟩ := pr
          rw [ht] at h
          simp only [Option.some_inj, Prod.mk.injEq] at h
          obtain ⟨hp, hr⟩ := h
          subst hp
          subst hr
          obtain ⟨hl, hlen, hdig⟩ := ih s p' r' ht
          subst hl
          refine ⟨rfl, by simp [hlen], ?_⟩
          intro x hx
          rcases List.mem_cons.mp hx with rfl | hx2
          · exact hc
          · exact hdig x hx2
      · rw [if_neg hc] at h
        simp at h

lemma forall_mem_pair {a b : Char} (ha : isDigit a = true) (hb : isDigit b = true) :
    ∀ c ∈ [a, b], isDigit c = true := by
  intro c hc
  rcases List.mem_cons.mp hc with rfl | hc2
  · exact ha
  · rcases List.mem_cons.mp hc2 with rfl | hc3
    · exact hb
    · simp at hc3

lemma forall_mem_triple {a b c : Char} (ha : isDigit a = true) (hb : isDigit b = true)
    (hc : isDigit c = true) : ∀ x ∈ [a, b, c], isDigit x = true := by
  intro x hx
  rcases List.mem_cons.mp hx with rfl | hx2
  · exact ha
  · exact forall_mem_pair hb hc x hx2

lemma matchDay_eval {d1 d2 : Char} (h1 : isDigit d1 = true) (h2 : isDigit d2 = true)
    (r : List Char) : matchDay (d1 :: d2 :: r) = some (digitsVal [d1, d2]) := by
  have ht : takeDigits 2 (d1 :: d2 :: r) = some ([d1, d2], r) := by
    simpa using takeDigits_append [d1, d2] (forall_mem_pair h1 h2) r
  unfold matchDay
  rw [ht]
  rfl

lemma sepThenDay_sep {c : Char} (hc : isSep c = true) {r : List Char} {v : Nat}
    (h : matchDay r = some v) : sepThenDay (c :: r) = some v := by
  rw [show sepThenDay (c :: r)
      = if isSep c then oor (matchDay r) (matchDay (c :: r)) else matchDay (c :: r)
      from rfl]
  rw [if_pos hc, h]
  rfl

lemma sepThenDay_nosep {c : Char} (hc : isSep c = false) {r : List Char} {v : Nat}
    (h : matchDay (c :: r) = some v) : sepThenDay (c :: r) = some v := by
  rw [show sepThenDay (c :: r)
      = if isSep c then oor (matchDay r) (matchDay (c :: r)) else matchDay (c :: r)
      from rfl]
  rw [if_neg (by simp [hc]), h]

lemma monthRest_eval {m1 m2 : Char} (h1 : isDigit m1 = true) (h2 : isDigit m2 = true)
    {rest : List Char} {v : Nat} (hsd : sepThenDay rest = some v) :
    monthRest (m1 :: m2 :: rest) = some (digitsVal [m1, m2], v) := by
  have ht : takeDigits 2 (m1 :: m2 :: rest) = some ([m1, m2], rest) := by
    simpa using takeDigits_append [m1, m2] (forall_mem_pair h1 h2) rest
  simp only [monthRest, ht, hsd, Option.map_some', oor_some]

lemma sepThenMD_sep {c : Char} (hc : isSep c = true) {r : List Char} {v : Nat × Nat}
    (h : monthRest r = some v) : sepThenMD (c :: r) = some v := by
  rw [show sepThenMD (c :: r)
      = if isSep c then oor (monthRest r) (monthRest (c :: r)) else monthRest (c :: r)
      from rfl]
  rw [if_pos hc, h]
  rfl

lemma sepThenMD_nosep {c : Char} (hc : isSep c = false) {r : List Char} {v : Nat × Nat}
    (h : monthRest (c :: r) = some v) : sepThenMD (c :: r) = some v := by
  rw [show sepThenMD (c :: r)
      = if isSep c then oor (monthRest r) (monthRest (c :: r)) else monthRest (c :: r)
      from rfl]
  rw [if_neg (by simp [hc]), h]

lemma rocMatch_eval3 {y1 y2 y3 : Char} (h1 : isDigit y1 = true) (h2 : isDigit y2 = true)
    (h3 : isDigit y3 = true) {rest : List Char} {md : Nat × Nat}
    (h : sepThenMD rest = some md) :
    rocMatch (y1 :: y2 :: y3 :: rest) = some (digitsVal [y1, y2, y3], md) := by
  have ht : takeDigits 3 (y1 :: y2 :: y3 :: rest) = some ([y1, y2, y3], rest) := by
    simpa using takeDigits_append [y1, y2, y3] (forall_mem_triple h1 h2 h3) rest
  simp only [rocMatch, ht, h, Option.map_some', oor_some]

lemma rocMatch_eval2 {y1 y2 c : Char} (h1 : isDigit y1 = true) (h2 : isDigit y2 = true)
    (hc : isDigit c = false) {rest : List Char} {md : Nat × Nat}
    (h : sepThenMD (c :: rest) = some md) :
    rocMatch (y1 :: y2 :: c :: rest) = some (digitsVal [y1, y2], md) := by
  have ht3 : takeDigits 3 (y1 :: y2 :: c :: rest) = none := by
    simp [takeDigits, h1, h2, hc]
  have ht2 : takeDigits 2 (y1 :: y2 :: c :: rest) = some ([y1, y2], c :: rest) := by
    simpa using takeDigits_append [y1, y2] (forall_mem_pair h1 h2) (c :: rest)
  simp only [rocMatch, ht3, ht2, h, Option.map_some', oor_none, oor_some]

lemma dropWhile_no_ws {l : List Char} (h : ∀ c ∈ l, isWs c = false) :
    l.dropWhile isWs = l := by
  cases l with
  | nil => rfl
  | cons c t =>
    rw [List.dropWhile_cons, h c (List.mem_cons_self c t)]
    simp

lemma strTrim_no_ws {l : List Char} (h : ∀ c ∈ l, isWs c = false) : strTrim l = l := by
  unfold strTrim
  rw [dropWhile_no_ws h, dropWhile_no_ws (by
    intro c hc
    exact h c (List.mem_reverse.mp hc)), List.reverse_reverse]

lemma strTrim_all_ws {l : List Char} (h : ∀ c ∈ l, isWs c = true) : strTrim l = [] := by
  unfold strTrim
  have h1 : l.dropWhile isWs = [] := by
    induction l with
    | nil => rfl
    | cons c t ih =>
      rw [List.dropWhile_cons, h c (List.mem_cons_self c t)]
      simpa using ih fun x hx => h x (List.mem_cons_of_mem c hx)
  rw [h1]
  rfl

lemma parse_of_rocMatch {L : List Char} {y m d : Nat} (hne : L ≠ [])
    (hws : ∀ c ∈ L, isWs c = false)
    (hm : rocMatch L = some (y, m, d)) :
    parse_roc_date (some L) = mkDate (y + 1911) m d := by
  simp only [parse_roc_date]
  rw [strTrim_no_ws hws, if_neg hne, hm]

lemma mkDate_valid_eq {y m d : Nat} (h : (Date.mk y m d).isValid = true) :
    mkDate y m d = some (Date.mk y m d) := by
  unfold mkDate
  rw [if_pos h]

lemma parse_some_valid {s : List Char} {d : Date}
    (h : parse_roc_date (some s) = some d) : d.isValid = true := by
  simp only [parse_roc_date] at h
  by_cases he : strTrim s = []
  · rw [if_pos he] at h
    exact absurd h (by simp)
  · rw [if_neg he] at h
    cases hm : rocMatch (strTrim s) with
    | none => rw [hm] at h; exact absurd h (by simp)
    | some g =>
      obtain ⟨ry, g2⟩ := g
      obtain ⟨m, dd⟩ := g2
      rw [hm] at h
      have h' : mkDate (ry + 1911) m dd = some d := h
      unfold mkDate at h'
      by_cases hvv : (Date.mk (ry + 1911) m dd).isValid = true
      · rw [if_pos hvv, Option.some_inj] at h'
        rw [← h']
        exact hvv
      · rw [if_neg hvv] at h'
        exact absurd h' (by simp)

/-- C5 counterexample: 1912-01-01 is a valid calendar date, but its
ROC rendering is 1/01/01, whose one-digit year field the two-or-three
digit year group rejects, so the round trip fails. -/
theorem c5_counterexample :
    (Date.mk 1912 1 1).isValid = true ∧
      parse_roc_date (some (date_to_roc_str (Date.mk 1912 1 1))) = none := by
  constructor <;> decide

/-- C5 amended: the parse-format round trip holds on exactly the valid
dates whose ROC year renders with two or three digits, that is with
year between 1921 and 2910: there parsing the formatted string
returns the original date. -/
theorem c5_roundtrip_amended (d : Date) (hv : d.isValid = true)
    (hlo : 1921 ≤ d.year) (hhi : d.year ≤ 2910) :
    parse_roc_date (some (date_to_roc_str d)) = some d := by
  obtain ⟨y, m, dy⟩ := d
  have hlo' : 1921 ≤ y := hlo
  have hhi' : y ≤ 2910 := hhi
  have hb := hv
  simp only [Date.isValid, Bool.and_eq_true, decide_eq_true_eq] at hb
  have hml31 : monthLength y m ≤ 31 := by
    unfold monthLength
    split_ifs <;> omega
  obtain ⟨m1, m2, hmEq, hm1d, hm2d, hmVal⟩ := pad2_shape (n := m) (by omega)
  obtain ⟨e1, e2, hdEq, he1d, he2d, heVal⟩ := pad2_shape (n := dy) (by omega)
  have hint : intToChars ((y : Int) - 1911) = natChars (y - 1911) := by
    have htn : ((y : Int) - 1911).toNat = y - 1911 := by omega
    unfold intToChars
    rw [if_neg (by omega), htn]
  by_cases hcase : y - 1911 ≤ 99
  · obtain ⟨a, b, hyEq, had, hbd, hyVal⟩ :=
      natChars_shape2 (n := y - 1911) (by omega) hcase
    have hfmt : date_to_roc_str (Date.mk y m dy)
        = a :: b :: '/' :: m1 :: m2 :: '/' :: e1 :: e2 :: [] := by
      rw [show date_to_roc_str (Date.mk y m dy)
          = intToChars ((y : Int) - 1911) ++ '/' :: (pad2 m ++ '/' :: pad2 dy)
          from rfl]
      rw [hint, hyEq, hmEq, hdEq]
      rfl
    have hws : ∀ c ∈ (a :: b :: '/' :: m1 :: m2 :: '/' :: e1 :: e2 :: [] : List Char),
        isWs c = false := by
      intro c hc
      simp only [List.mem_cons, List.not_mem_nil, or_false] at hc
      rcases hc with rfl | rfl | rfl | rfl | rfl | rfl | rfl | rfl
      · exact not_isWs_of_isDigit had
      · exact not_isWs_of_isDigit hbd
      · decide
      · exact not_isWs_of_isDigit hm1d
      · exact not_isWs_of_isDigit hm2d
      · decide
      · exact not_isWs_of_isDigit he1d
      · exact not_isWs_of_isDigit he2d
    have hsd : sepThenDay ('/' :: e1 :: e2 :: []) = some (digitsVal [e1, e2]) :=
      sepThenDay_sep (by decide) (matchDay_eval he1d he2d [])
    have hmr : monthRest (m1 :: m2 :: '/' :: e1 :: e2 :: [])
        = some (digitsVal [m1, m2], digitsVal [e1, e2]) :=
      monthRest_eval hm1d hm2d hsd
    have hmd : sepThenMD ('/' :: m1 :: m2 :: '/' :: e1 :: e2 :: [])
        = some (digitsVal [m1, m2], digitsVal [e1, e2]) :=
      sepThenMD_sep (by decide) hmr
    have hrm : rocMatch (a :: b :: '/' :: m1 :: m2 :: '/' :: e1 :: e2 :: [])
        = some (digitsVal [a, b], digitsVal [m1, m2], digitsVal [e1, e2]) :=
      rocMatch_eval2 had hbd (by decide) hmd
    rw [hfmt, parse_of_rocMatch (by simp) hws hrm, hyVal, hmVal, heVal,
      show y - 1911 + 1911 = y from by omega]
    exact mkDate_valid_eq hv
  · obtain ⟨a, b, c3, hyEq, had, hbd, hcd, hyVal⟩ :=
      natChars_shape3 (n := y - 1911) (by omega) (by omega)
    have hfmt : date_to_roc_str (Date.mk y m dy)
        = a :: b :: c3 :: '/' :: m1 :: m2 :: '/' :: e1 :: e2 :: [] := by
      rw [show date_to_roc_str (Date.mk y m dy)
          = intToChars ((y : Int) - 1911) ++ '/' :: (pad2 m ++ '/' :: pad2 dy)
          from rfl]
      rw [hint, hyEq, hmEq, hdEq]
      rfl
    have hws : ∀ c ∈ (a :: b :: c3 :: '/' :: m1 :: m2 :: '/' :: e1 :: e2 :: []
        : List Char), isWs c = false := by
      intro c hc
      simp only [List.mem_cons, List.not_mem_nil, or_false] at hc
      rcases hc with rfl | rfl | rfl | rfl | rfl | rfl | rfl | rfl | rfl
      · exact not_isWs_of_isDigit had
      · exact not_isWs_of_isDigit hbd
      · exact not_isWs_of_isDigit hcd
      · decide
      · exact not_isWs_of_isDigit hm1d
      · exact not_isWs_of_isDigit hm2d
      · decide
      · exact not_isWs_of_isDigit he1d
      · exact not_isWs_of_isDigit he2d
    have hsd : sepThenDay ('/' :: e1 :: e2 :: []) = some (digitsVal [e1, e2]) :=
      sepThenDay_sep (by decide) (matchDay_eval he1d he2d [])
    have hmr : monthRest (m1 :: m2 :: '/' :: e1 :: e2 :: [])
        = some (digitsVal [m1, m2], digitsVal [e1, e2]) :=
      monthRest_eval hm1d hm2d hsd
    have hmd : sepThenMD ('/' :: m1 :: m2 :: '/' :: e1 :: e2 :: [])
        = some (digitsVal [m1, m2], digitsVal [e1, e2]) :=
      sepThenMD_sep (by decide) hmr
    have hrm : rocMatch (a :: b :: c3 :: '/' :: m1 :: m2 :: '/' :: e1 :: e2 :: [])
        = some (digitsVal [a, b, c3], digitsVal [m1, m2], digitsVal [e1, e2]) :=
      rocMatch_eval3 had hbd hcd hmd
    rw [hfmt, parse_of_rocMatch (by simp) hws hrm, hyVal, hmVal, heVal,
      show y - 1911 + 1911 = y from by omega]
    exact mkDate_valid_eq hv

/-- Witness for the amended C5 at 2023-09-01. -/
theorem c5_roundtrip_amended_witness :
    parse_roc_date (some (date_to_roc_str (Date.mk 2023 9 1)))
      = some (Date.mk 2023 9 1) :=
  c5_roundtrip_amended (Date.mk 2023 9 1) (by decide) (by decide) (by decide)

/-- C6 counterexample: the six-digit string 120901 denotes ROC year 12,
month 09, day 01, the valid date 1923-09-01, yet the greedy year group
takes three digits, yielding groups 120, 90, 1, whose month 90 is not
constructible, so parsing fails instead of producing 1923-09-01. -/
theorem c6_counterexample :
    (Date.mk 1923 9 1).isValid = true ∧
      parse_roc_date (some ("120901".toList)) = none := by
  constructor <;> decide

/-- C6 amended: the three separated shapes and the no-separator shape
with a three-digit year are accepted: the four concrete strings of P4
all parse to 2023-09-01, and every valid date whose ROC year has three
digits parses back from its seven-digit rendering; six-digit strings
with a two-digit ROC year are instead consumed with a greedy
three-digit year group and can fail (see the counterexample). -/
theorem c6_format_acceptance :
    (parse_roc_date (some ("112/09/01".toList)) = some (Date.mk 2023 9 1) ∧
      parse_roc_date (some ("112-09-01".toList)) = some (Date.mk 2023 9 1) ∧
      parse_roc_date (some ("112.09.01".toList)) = some (Date.mk 2023 9 1) ∧
      parse_roc_date (some ("1120901".toList)) = some (Date.mk 2023 9 1)) ∧
    (∀ d : Date, d.isValid = true → 2011 ≤ d.year → d.year ≤ 2910 →
      parse_roc_date (some (natChars (d.year - 1911) ++ pad2 d.month ++ pad2 d.day))
        = some d) := by
  constructor
  · exact ⟨by decide, by decide, by decide, by decide⟩
  · intro d hv hlo hhi
    obtain ⟨y, m, dy⟩ := d
    have hlo' : 2011 ≤ y := hlo
    have hhi' : y ≤ 2910 := hhi
    have hb := hv
    simp only [Date.isValid, Bool.and_eq_true, decide_eq_true_eq] at hb
    have hml31 : monthLength y m ≤ 31 := by
      unfold monthLength
      split_ifs <;> omega
    obtain ⟨m1, m2, hmEq, hm1d, hm2d, hmVal⟩ := pad2_shape (n := m) (by omega)
    obtain ⟨e1, e2, hdEq, he1d, he2d, heVal⟩ := pad2_shape (n := dy) (by omega)
    obtain ⟨a, b, c3, hyEq, had, hbd, hcd, hyVal⟩ :=
      natChars_shape3 (n := y - 1911) (by omega) (by omega)
    have hfmt : natChars (y - 1911) ++ pad2 m ++ pad2 dy
        = a :: b :: c3 :: m1 :: m2 :: e1 :: e2 :: [] := by
      rw [hyEq, hmEq, hdEq]
      rfl
    have hws : ∀ c ∈ (a :: b :: c3 :: m1 :: m2 :: e1 :: e2 :: [] : List Char),
        isWs c = false := by
      intro c hc
      simp only [List.mem_cons, List.not_mem_nil, or_false] at hc
      rcases hc with rfl | rfl | rfl | rfl | rfl | rfl | rfl
      · exact not_isWs_of_isDigit had
      · exact not_isWs_of_isDigit hbd
      · exact not_isWs_of_isDigit hcd
      · exact not_isWs_of_isDigit hm1d
      · exact not_isWs_of_isDigit hm2d
      · exact not_isWs_of_isDigit he1d
      · exact not_isWs_of_isDigit he2d
    have hsd : sepThenDay (e1 :: e2 :: []) = some (digitsVal [e1, e2]) :=
      sepThenDay_nosep (not_isSep_of_isDigit he1d) (matchDay_eval he1d he2d [])
    have hmr : monthRest (m1 :: m2 :: e1 :: e2 :: [])
        = some (digitsVal [m1, m2], digitsVal [e1, e2]) :=
      monthRest_eval hm1d hm2d hsd
    have hmd : sepThenMD (m1 :: m2 :: e1 :: e2 :: [])
        = some (digitsVal [m1, m2], digitsVal [e1, e2]) :=
      sepThenMD_nosep (not_isSep_of_isDigit hm1d) hmr
    have hrm : rocMatch (a :: b :: c3 :: m1 :: m2 :: e1 :: e2 :: [])
        = some (digitsVal [a, b, c3], digitsVal [m1, m2], digitsVal [e1, e2]) :=
      rocMatch_eval3 had hbd hcd hmd
    rw [hfmt, parse_of_rocMatch (by simp) hws hrm, hyVal, hmVal, heVal,
      show y - 1911 + 1911 = y from by omega]
    exact mkDate_valid_eq hv

/-- Witness for the amended C6 at 2023-09-01 in seven-digit form. -/
theorem c6_format_acceptance_witness :
    parse_roc_date (some (natChars 112 ++ pad2 9 ++ pad2 1))
      = some (Date.mk 2023 9 1) :=
  c6_format_acceptance.2 (Date.mk 2023 9 1) (by decide) (by decide) (by decide)

/-- C7: parse_roc_date is a total function returning none on every
failure path: a missing cell, an all-whitespace string, a string the
pattern does not match, and a matched string whose groups are not a
constructible date all give none, and any date it does return passed
the constructibility check; the concrete malformed 13/45/99 parses to
none. -/
theorem c7_no_exceptions :
    parse_roc_date none = none ∧
      (∀ s : List Char, (∀ c ∈ s, isWs c = true) → parse_roc_date (some s) = none) ∧
      (∀ s : List Char, rocMatch (strTrim s) = none → parse_roc_date (some s) = none) ∧
      (∀ (s : List Char) (y m dd : Nat), rocMatch (strTrim s) = some (y, m, dd) →
        mkDate (y + 1911) m dd = none → parse_roc_date (some s) = none) ∧
      (∀ (s : List Char) (d : Date), parse_roc_date (some s) = some d →
        d.isValid = true) ∧
      parse_roc_date (some ("13/45/99".toList)) = none := by
  refine ⟨rfl, ?_, ?_, ?_, ?_, by decide⟩
  · intro s h
    simp only [parse_roc_date]
    rw [strTrim_all_ws h]
    simp
  · intro s h
    simp only [parse_roc_date]
    by_cases he : strTrim s = []
    · rw [if_pos he]
    · rw [if_neg he, h]
  · intro s y m dd hmt hmk
    simp only [parse_roc_date]
    by_cases he : strTrim s = []
    · rw [if_pos he]
    · rw [if_neg he, hmt]
      exact hmk
  · intro s d h
    exact parse_some_valid h

/-- Witness for C7 at a blank string and a non-matching string. -/
theorem c7_no_exceptions_witness :
    parse_roc_date (some [' ']) = none ∧ parse_roc_date (some ['a', 'b']) = none :=
  ⟨c7_no_exceptions.2.1 [' '] (by decide),
    c7_no_exceptions.2.2.1 ['a', 'b'] (by decide)⟩

lemma oor_isSome {α : Type} (a b : Option α) :
    (oor a b).isSome = (a.isSome || b.isSome) := by
  cases a <;> simp [oor]

lemma takeDigits_mono {n : Nat} {l p r : List Char}
    (h : takeDigits n l = some (p, r)) (t : List Char) :
    takeDigits n (l ++ t) = some (p, r ++ t) := by
  obtain ⟨hl, hlen, hdig⟩ := takeDigits_sound n l p r h
  subst hl
  rw [List.append_assoc, ← hlen]
  exact takeDigits_append p hdig (r ++ t)

lemma matchDay_mono {l : List Char} (h : (matchDay l).isSome = true) (t : List Char) :
    (matchDay (l ++ t)).isSome = true := by
  unfold matchDay at h ⊢
  rw [oor_isSome] at h ⊢
  rw [Bool.or_eq_true] at h
  rcases h with h1 | h1
  · rcases h2 : takeDigits 2 l with _ | ⟨p, r⟩
    · rw [h2] at h1
      simp at h1
    · rw [takeDigits_mono h2 t]
      simp
  · rcases h2 : takeDigits 1 l with _ | ⟨p, r⟩
    · rw [h2] at h1
      simp at h1
    · rw [takeDigits_mono h2 t]
      simp

lemma sepThenDay_mono {l : List Char} (h : (sepThenDay l).isSome = true)
    (t : List Char) : (sepThenDay (l ++ t)).isSome = true := by
  cases l with
  | nil => exact absurd h (by decide)
  | cons c r =>
    rw [show sepThenDay (c :: r)
        = if isSep c then oor (matchDay r) (matchDay (c :: r)) else matchDay (c :: r)
        from rfl] at h
    rw [show (c :: r) ++ t = c :: (r ++ t) from rfl]
    rw [show sepThenDay (c :: (r ++ t))
        = if isSep c then oor (matchDay (r ++ t)) (matchDay (c :: (r ++ t)))
          else matchDay (c :: (r ++ t)) from rfl]
    by_cases hc : isSep c = true
    · rw [if_pos hc] at h
      rw [if_pos hc, oor_isSome]
      rw [oor_isSome] at h
      rw [Bool.or_eq_true] at h
      rcases h with h1 | h1
      · rw [matchDay_mono h1 t]
        simp
      · have h2 : (matchDay ((c :: r) ++ t)).isSome = true := matchDay_mono h1 t
        rw [show (c :: r) ++ t = c :: (r ++ t) from rfl] at h2
        rw [h2]
        simp
    · rw [if_neg hc] at h
      rw [if_neg hc]
      have h2 : (matchDay ((c :: r) ++ t)).isSome = true := matchDay_mono h t
      rw [show (c :: r) ++ t = c :: (r ++ t) from rfl] at h2
      exact h2

lemma monthRest_mono {l : List Char} (h : (monthRest l).isSome = true)
    (t : List Char) : (monthRest (l ++ t)).isSome = true := by
  unfold monthRest at h ⊢
  rw [oor_isSome] at h ⊢
  rw [Bool.or_eq_true] at h
  rcases h with h1 | h1
  · rcases h2 : takeDigits 2 l with _ | ⟨p, r⟩
    · rw [h2] at h1
      simp at h1
    · rw [h2] at h1
      have h1' : ((sepThenDay r).map fun d => (digitsVal p, d)).isSome = true := h1
      have h3 : (sepThenDay r).isSome = true := by
        rcases h4 : sepThenDay r with _ | v
        · rw [h4] at h1'
          simp at h1'
        · rfl
      obtain ⟨v, hv⟩ := Option.isSome_iff_exists.mp (sepThenDay_mono h3 t)
      rw [takeDigits_mono h2 t]
      simp [hv]
  · rcases h2 : takeDigits 1 l with _ | ⟨p, r⟩
    · rw [h2] at h1
      simp at h1
    · rw [h2] at h1
      have h1' : ((sepThenDay r).map fun d => (digitsVal p, d)).isSome = true := h1
      have h3 : (sepThenDay r).isSome = true := by
        rcases h4 : sepThenDay r with _ | v
        · rw [h4] at h1'
          simp at h1'
        · rfl
      obtain ⟨v, hv⟩ := Option.isSome_iff_exists.mp (sepThenDay_mono h3 t)
      rw [takeDigits_mono h2 t]
      simp [hv]

lemma sepThenMD_mono {l : List Char} (h : (sepThenMD l).isSome = true)
    (t : List Char) : (sepThenMD (l ++ t)).isSome = true := by
  cases l with
  | nil => exact absurd h (by decide)
  | cons c r =>
    rw [show sepThenMD (c :: r)
        = if isSep c then oor (monthRest r) (monthRest (c :: r)) else monthRest (c :: r)
        from rfl] at h
    rw [show (c :: r) ++ t = c :: (r ++ t) from rfl]
    rw [show sepThenMD (c :: (r ++ t))
        = if isSep c then oor (monthRest (r ++ t)) (monthRest (c :: (r ++ t)))
          else monthRest (c :: (r ++ t)) from rfl]
    by_cases hc : isSep c = true
    · rw [if_pos hc] at h
      rw [if_pos hc, oor_isSome]
      rw [oor_isSome] at h
      rw [Bool.or_eq_true] at h
      rcases h with h1 | h1
      · rw [monthRest_mono h1 t]
        simp
      · have h2 : (monthRest ((c :: r) ++ t)).isSome = true := monthRest_mono h1 t
        rw [show (c :: r) ++ t = c :: (r ++ t) from rfl] at h2
        rw [h2]
        simp
    · rw [if_neg hc] at h
      rw [if_neg hc]
      have h2 : (monthRest ((c :: r) ++ t)).isSome = true := monthRest_mono h t
      rw [show (c :: r) ++ t = c :: (r ++ t) from rfl] at h2
      exact h2

/-- C10 amended: the regex of parse_roc_date anchors only at the start
of the string, so whenever it matches a string it still matches after
appending arbitrary trailing characters; however the greedy numeric
groups may absorb appended digits, so the groups, and hence the parsed
date or its validity, can change (see the counterexample). -/
theorem c10_prefix_match (s t : List Char) (h : (rocMatch s).isSome = true) :
    (rocMatch (s ++ t)).isSome = true := by
  unfold rocMatch at h ⊢
  rw [oor_isSome] at h ⊢
  rw [Bool.or_eq_true] at h
  rcases h with h1 | h1
  · rcases h2 : takeDigits 3 s with _ | ⟨p, r⟩
    · rw [h2] at h1
      simp at h1
    · rw [h2] at h1
      have h1' : ((sepThenMD r).map fun md => (digitsVal p, md)).isSome = true := h1
      have h3 : (sepThenMD r).isSome = true := by
        rcases h4 : sepThenMD r with _ | v
        · rw [h4] at h1'
          simp at h1'
        · rfl
      obtain ⟨v, hv⟩ := Option.isSome_iff_exists.mp (sepThenMD_mono h3 t)
      rw [takeDigits_mono h2 t]
      simp [hv]
  · rcases h2 : takeDigits 2 s with _ | ⟨p, r⟩
    · rw [h2] at h1
      simp at h1
    · rw [h2] at h1
      have h1' : ((sepThenMD r).map fun md => (digitsVal p, md)).isSome = true := h1
      have h3 : (sepThenMD r).isSome = true := by
        rcases h4 : sepThenMD r with _ | v
        · rw [h4] at h1'
          simp at h1'
        · rfl
      obtain ⟨v, hv⟩ := Option.isSome_iff_exists.mp (sepThenMD_mono h3 t)
      rw [takeDigits_mono h2 t]
      simp [hv]

/-- C10 counterexample: 112/09/3 parses to 2023-09-03, but appending
the digit 2 extends the greedy day group to 32, which is not a
constructible day of September, so the extended string fails to parse
instead of keeping the prefix date. -/
theorem c10_counterexample :
    parse_roc_date (some ("112/09/3".toList)) = some (Date.mk 2023 9 3) ∧
      parse_roc_date (some ("112/09/3".toList ++ "2".toList)) = none := by
  constructor <;> decide

/-- Witness for the amended C10 at a concrete extension. -/
theorem c10_prefix_match_witness :
    (rocMatch ("112/09/01".toList ++ "xy".toList)).isSome = true :=
  c10_prefix_match ("112/09/01".toList) ("xy".toList) (by decide)
